import Mathlib

/-!
Verification of the wear-tracking and aggregation core of the wardrobe
tracker application: the wear_history trigger that maintains the
denormalized counters on clothing_items, the initial wear-count seeding
performed at item creation, the overview statistics, cost per wear, the
sequential multi-image upload flow, and the suggestion cache.

Dates are modelled as integers (any linearly ordered stand-in for SQL
DATE works), SQL NULL as Option, SQL INTEGER as Int, and DECIMAL as Rat.
-/

namespace WardrobeTracker

/-- State of one clothing item together with its wear_history rows: the
date_worn of each row in insertion order (none encodes SQL NULL), and the
denormalized times_worn and last_worn_date columns of the item row. -/
structure ItemState where
  events : List (Option Int)
  times_worn : Int
  last_worn : Option Int
deriving DecidableEq, Repr

/-- The INSERT branch of update_clothing_item_stats: the new wear row is
appended, times_worn is incremented by one, and last_worn_date is set to
the new date when it is non-null and kept unchanged otherwise. -/
def insertWear (s : ItemState) (d : Option Int) : ItemState :=
  { events := s.events ++ [d]
    times_worn := s.times_worn + 1
    last_worn :=
      match d with
      | some x => some x
      | none => s.last_worn }

/-- SELECT MAX(date_worn) over the rows whose date_worn is non-null;
none when no row carries a date. -/
def maxDate (evs : List (Option Int)) : Option Int :=
  evs.foldl
    (fun acc d =>
      match acc, d with
      | none, d => d
      | some m, none => some m
      | some m, some x => some (max m x))
    none

/-- The DELETE branch of update_clothing_item_stats: when the row at
index i exists it is removed, times_worn becomes
GREATEST(times_worn - 1, 0), and last_worn_date is recomputed as the
maximum non-null date among the remaining rows; when no row is deleted
the trigger does not fire. -/
def deleteWear (s : ItemState) (i : Nat) : ItemState :=
  if i < s.events.length then
    let evs := s.events.eraseIdx i
    { events := evs
      times_worn := max (s.times_worn - 1) 0
      last_worn := maxDate evs }
  else s

/-- A wear_history operation routed through the trigger. -/
inductive WearOp where
  | ins (d : Option Int)
  | del (i : Nat)
deriving DecidableEq, Repr

/-- One trigger-mediated operation applied to an item. -/
def applyOp (s : ItemState) : WearOp → ItemState
  | .ins d => insertWear s d
  | .del i => deleteWear s i

/-- A sequence of trigger-mediated operations applied left to right. -/
def applyOps (s : ItemState) (ops : List WearOp) : ItemState :=
  ops.foldl applyOp s

/-- The wear-count seeding performed by proceedWithSave in AddItem.tsx:
the clothing_items row is inserted with times_worn already set to the
parsed count and last_worn_date absent, and when the count is positive
that many wear_history rows with null date_worn are inserted, each one
firing the trigger. -/
def seedInitialWearCount (timesWorn : Int) : ItemState :=
  let inserted : ItemState := { events := [], times_worn := timesWorn, last_worn := none }
  if 0 < timesWorn then
    applyOps inserted (List.replicate timesWorn.toNat (WearOp.ins none))
  else inserted

/-- The only validation errors raised by handleSave in AddItem.tsx. -/
inductive SaveError where
  | nameRequired
  | categoryRequired
deriving DecidableEq, Repr

/-- JavaScript String.prototype.trim: strips whitespace from both ends. -/
def jsTrim (s : String) : String :=
  (((s.toList.dropWhile Char.isWhitespace).reverse.dropWhile Char.isWhitespace).reverse).asString

/-- The validations performed by handleSave before saving: a non-empty
trimmed name and a selected category; the times-worn count is not
validated anywhere. -/
def handleSaveValidate (name category : String) : Option SaveError :=
  if jsTrim name = "" then some SaveError.nameRequired
  else if category = "" then some SaveError.categoryRequired
  else none

/-- A sequence of recordWear calls: each call inserts one wear_history
row with the given optional date, firing the trigger insert branch. -/
def recordWears (s : ItemState) (ds : List (Option Int)) : ItemState :=
  ds.foldl insertWear s

/-- The times_worn component written by the trigger insert branch. -/
theorem insertWear_times_worn (s : ItemState) (d : Option Int) :
    (insertWear s d).times_worn = s.times_worn + 1 := rfl

/-- The events component written by the trigger insert branch. -/
theorem insertWear_events (s : ItemState) (d : Option Int) :
    (insertWear s d).events = s.events ++ [d] := rfl

/-- A dated insert overwrites last_worn_date with the new date. -/
theorem insertWear_last_worn_some (s : ItemState) (x : Int) :
    (insertWear s (some x)).last_worn = some x := rfl

/-- A dateless insert keeps last_worn_date unchanged. -/
theorem insertWear_last_worn_none (s : ItemState) :
    (insertWear s none).last_worn = s.last_worn := rfl

/-- maxDate over a list extended by one row is the fold step applied to
the old maximum. -/
theorem maxDate_append (evs : List (Option Int)) (d : Option Int) :
    maxDate (evs ++ [d]) =
      match maxDate evs, d with
      | none, d => d
      | some m, none => some m
      | some m, some x => some (max m x) := by
  unfold maxDate
  rw [List.foldl_append]
  simp only [List.foldl_cons, List.foldl_nil]

/-- Appending a dateless row leaves the maximum date unchanged. -/
theorem maxDate_append_none (evs : List (Option Int)) :
    maxDate (evs ++ [none]) = maxDate evs := by
  rw [maxDate_append]
  cases maxDate evs <;> rfl

/-- Appending a dated row takes the maximum with the new date. -/
theorem maxDate_append_some (evs : List (Option Int)) (x : Int) :
    maxDate (evs ++ [some x]) =
      match maxDate evs with
      | none => some x
      | some m => some (max m x) := by
  rw [maxDate_append]
  cases maxDate evs <;> rfl

/-- The inserted date (when present) is at least every date already
present at the moment of insertion. -/
def insOKb (s : ItemState) : WearOp → Bool
  | .ins (some x) =>
      match maxDate s.events with
      | none => true
      | some m => decide (m ≤ x)
  | _ => true

/-- Every insertion in the sequence is chronological at the moment it is
applied. -/
def chronoSeq : ItemState → List WearOp → Bool
  | _, [] => true
  | s, op :: rest => insOKb s op && chronoSeq (applyOp s op) rest

/-- C1. When an item is created with a declared already-worn count of 3,
exactly 3 wear rows with absent date are inserted and last_worn_date
stays absent, but times_worn ends at 6, not 3: the item row is inserted
with times_worn already set to 3 and each of the 3 wear-row inserts then
fires the trigger increment, double counting the seed. -/
theorem seedInitialWearCount_double_counts :
    (seedInitialWearCount 3).events = [none, none, none] ∧
    (seedInitialWearCount 3).times_worn = 6 ∧
    (seedInitialWearCount 3).last_worn = none := by
  decide

/-- C6 counterexample: a negative declared count of -2 passes every
validation performed by the save flow (only name and category are
checked), no wear row is inserted, and the item row is written with
times_worn = -2; no ValidationError is raised. -/
theorem negative_seed_count_not_rejected :
    handleSaveValidate "Shirt" "tops" = none ∧
    (seedInitialWearCount (-2)).times_worn = -2 ∧
    (seedInitialWearCount (-2)).events = [] := by
  refine ⟨by decide, by decide, by decide⟩

/-- C6 (amended): a negative already-worn count is not rejected; the
save succeeds, inserts no wear-event rows, and writes the negative value
itself as the item's times_worn, with last_worn_date absent. -/
theorem seedInitialWearCount_negative (c : Int) (h : c < 0) :
    seedInitialWearCount c = { events := [], times_worn := c, last_worn := none } := by
  unfold seedInitialWearCount
  rw [if_neg (by omega)]

/-- Witness for C6 at the concrete count -2. -/
theorem seedInitialWearCount_negative_witness :
    seedInitialWearCount (-2) = { events := [], times_worn := -2, last_worn := none } :=
  seedInitialWearCount_negative (-2) (by decide)

/-- C2 counterexample: starting from a fresh item, inserting a wear
dated 5 and then one dated 3 leaves last_worn_date = 3 while the maximum
date among the remaining rows is 5, because the trigger insert branch
overwrites last_worn_date with the new date unconditionally. -/
theorem last_worn_not_max_after_backdated_insert :
    (applyOps { events := [], times_worn := 0, last_worn := none }
      [WearOp.ins (some 5), WearOp.ins (some 3)]).last_worn = some 3 ∧
    maxDate (applyOps { events := [], times_worn := 0, last_worn := none }
      [WearOp.ins (some 5), WearOp.ins (some 3)]).events = some 5 := by
  decide

/-- C2 (amended): last_worn_date equals the maximum non-null date among
the remaining wear rows after every sequence of insertions and deletions
in which each inserted date (when present) is at least every date already
present; deletions recompute the maximum and preserve the invariant
unconditionally, while an insertion dated earlier than the current
maximum can break it. -/
theorem last_worn_eq_maxDate_of_chrono :
    ∀ (ops : List WearOp) (s : ItemState),
      s.last_worn = maxDate s.events →
      chronoSeq s ops = true →
      (applyOps s ops).last_worn = maxDate (applyOps s ops).events := by
  intro ops
  induction ops with
  | nil =>
      intro s hInv _
      simpa [applyOps] using hInv
  | cons op rest ih =>
      intro s hInv hchrono
      rw [chronoSeq, Bool.and_eq_true] at hchrono
      obtain ⟨h1, h2⟩ := hchrono
      have hstep : (applyOp s op).last_worn = maxDate (applyOp s op).events := by
        cases op with
        | ins d =>
            cases d with
            | none =>
                show (insertWear s none).last_worn = maxDate (insertWear s none).events
                rw [insertWear_last_worn_none, insertWear_events, maxDate_append_none]
                exact hInv
            | some x =>
                show (insertWear s (some x)).last_worn = maxDate (insertWear s (some x)).events
                rw [insertWear_last_worn_some, insertWear_events, maxDate_append_some]
                unfold insOKb at h1
                cases hmd : maxDate s.events with
                | none => simp
                | some m =>
                    rw [hmd] at h1
                    simp only [decide_eq_true_eq] at h1
                    simp [max_eq_right h1]
        | del i =>
            by_cases hi : i < s.events.length
            · simp [applyOp, deleteWear, hi]
            · simpa [applyOp, deleteWear, hi] using hInv
      have hrw : applyOps s (op :: rest) = applyOps (applyOp s op) rest := rfl
      rw [hrw]
      exact ih (applyOp s op) hstep h2

/-- Witness for C2 on a concrete chronological sequence containing a
dated insert, a dateless insert, a deletion, and a later dated insert. -/
theorem last_worn_eq_maxDate_of_chrono_witness :
    (applyOps { events := [], times_worn := 0, last_worn := none }
        [WearOp.ins (some 1), WearOp.ins none, WearOp.del 0, WearOp.ins (some 3)]).last_worn =
      maxDate (applyOps { events := [], times_worn := 0, last_worn := none }
        [WearOp.ins (some 1), WearOp.ins none, WearOp.del 0, WearOp.ins (some 3)]).events :=
  last_worn_eq_maxDate_of_chrono _ { events := [], times_worn := 0, last_worn := none }
    (by decide) (by decide)

/-- Undated trigger inserts add exactly their number to the counter. -/
theorem applyOps_replicate_ins_times_worn (m : Nat) :
    ∀ s : ItemState,
      (applyOps s (List.replicate m (WearOp.ins none))).times_worn = s.times_worn + m := by
  induction m with
  | zero => intro s; simp [applyOps]
  | succ k ih =>
      intro s
      have h1 : applyOps s (List.replicate (k + 1) (WearOp.ins none)) =
          applyOps (insertWear s none) (List.replicate k (WearOp.ins none)) := rfl
      rw [h1, ih, insertWear_times_worn]
      push_cast
      ring

/-- For a positive declared count the counter present after seeding is
twice the count: the item row is written with the count and each seeded
wear row fires the trigger increment. -/
theorem seedInitialWearCount_times_worn (n : Int) (h : 0 < n) :
    (seedInitialWearCount n).times_worn = 2 * n := by
  unfold seedInitialWearCount
  rw [if_pos h]
  rw [applyOps_replicate_ins_times_worn, Int.toNat_of_nonneg (le_of_lt h)]
  show n + n = 2 * n
  ring

/-- C5 counterexample: an item seeded with a declared count of 3
followed by 2 recordWear calls ends with times_worn = 8, not the seeded
initial count plus the number of calls (3 + 2 = 5), because the seeding
itself already leaves the counter at 6. -/
theorem seeded_then_calls_total_mismatch :
    (recordWears (seedInitialWearCount 3) [some 1, none]).times_worn = 8 ∧
    (recordWears (seedInitialWearCount 3) [some 1, none]).times_worn ≠ 3 + 2 := by
  decide

/-- C5 (amended). Each recordWear call increments times_worn by exactly
one, so any sequence of calls adds its length to the counter present
when the sequence starts; for an item created with a positive declared
count n that counter is 2n (the double count of the seeding flow), so k
calls end at 2n + k rather than the claimed n + k; and when the recorded
date is present and at least the current last_worn_date (or that is
absent), last_worn_date becomes the recorded date. -/
theorem recordWear_counts_and_last_worn :
    (∀ (s : ItemState) (ds : List (Option Int)),
        (recordWears s ds).times_worn = s.times_worn + ds.length) ∧
    (∀ n : Int, 0 < n → ∀ ds : List (Option Int),
        (recordWears (seedInitialWearCount n) ds).times_worn = 2 * n + ds.length) ∧
    (∀ (s : ItemState) (x : Int),
        (s.last_worn = none ∨ ∃ y, s.last_worn = some y ∧ y ≤ x) →
        (insertWear s (some x)).last_worn = some x) := by
  have hcount : ∀ (s : ItemState) (ds : List (Option Int)),
      (recordWears s ds).times_worn = s.times_worn + ds.length := by
    intro s ds
    induction ds generalizing s with
    | nil => simp [recordWears]
    | cons d rest ih =>
        have h := ih (insertWear s d)
        simp only [recordWears, List.foldl_cons] at h ⊢
        rw [h, insertWear_times_worn]
        simp only [List.length_cons]
        push_cast
        ring
  refine ⟨hcount, ?_, ?_⟩
  · intro n hn ds
    rw [hcount, seedInitialWearCount_times_worn n hn]
  · intro s x _h
    rfl

/-- Witness for C5: two calls on an item whose counter starts at 2 end
at 4; one call on an item seeded with a declared count of 2 ends at 5;
and a dated call with a date above the current last_worn_date sets
last_worn_date to that date. -/
theorem recordWear_counts_and_last_worn_witness :
    (recordWears { events := [], times_worn := 2, last_worn := some 0 }
        [some 1, none]).times_worn = 4 ∧
    (recordWears (seedInitialWearCount 2) [none]).times_worn = 5 ∧
    (insertWear { events := [], times_worn := 2, last_worn := some 0 }
        (some 1)).last_worn = some 1 := by
  refine ⟨?_, ?_, ?_⟩
  · exact recordWear_counts_and_last_worn.1
      { events := [], times_worn := 2, last_worn := some 0 } [some 1, none]
  · exact recordWear_counts_and_last_worn.2.1 2 (by decide) [none]
  · exact recordWear_counts_and_last_worn.2.2
      { events := [], times_worn := 2, last_worn := some 0 } 1
      (Or.inr ⟨0, rfl, by decide⟩)

/-- C10 counterexample: from a starting counter of -2 (reachable, since
the save flow writes a negative declared count verbatim) a single
insertion leaves times_worn = -1, which is negative; so the claim does
not hold from arbitrary starting counter values. -/
theorem times_worn_negative_reachable :
    (applyOps { events := [], times_worn := -2, last_worn := none }
      [WearOp.ins none]).times_worn = -1 := by
  decide

/-- C10 (amended): from any non-negative starting counter value,
times_worn stays non-negative under every sequence of wear-event
insertions and deletions, because the deletion branch clamps at zero
with GREATEST(times_worn - 1, 0). -/
theorem times_worn_nonneg (ops : List WearOp) :
    ∀ s : ItemState, 0 ≤ s.times_worn → 0 ≤ (applyOps s ops).times_worn := by
  induction ops with
  | nil =>
      intro s h
      simpa [applyOps] using h
  | cons op rest ih =>
      intro s h
      have hstep : 0 ≤ (applyOp s op).times_worn := by
        cases op with
        | ins d =>
            show 0 ≤ (insertWear s d).times_worn
            rw [insertWear_times_worn]
            omega
        | del i =>
            by_cases hi : i < s.events.length
            · simp only [applyOp, deleteWear, if_pos hi]
              exact le_max_right _ _
            · simpa [applyOp, deleteWear, hi] using h
      have hrw : applyOps s (op :: rest) = applyOps (applyOp s op) rest := rfl
      rw [hrw]
      exact ih _ hstep

/-- Witness for C10 on a concrete sequence with an insertion, a
deletion, and an out-of-range deletion, starting from zero. -/
theorem times_worn_nonneg_witness :
    0 ≤ (applyOps { events := [], times_worn := 0, last_worn := none }
      [WearOp.ins none, WearOp.del 0, WearOp.del 5]).times_worn :=
  times_worn_nonneg [WearOp.ins none, WearOp.del 0, WearOp.del 5]
    { events := [], times_worn := 0, last_worn := none } (by decide)

/-- The fields of a clothing item used by the overview statistics. -/
structure StatItem where
  name : String
  times_worn : Int
deriving DecidableEq, Repr

/-- One step of the most-worn reduce in fetchStats (index.tsx): the
accumulator starts at null and is replaced whenever the current item has
strictly more wears. -/
def mostWornStep (acc : Option StatItem) (item : StatItem) : Option StatItem :=
  match acc with
  | none => some item
  | some m => if m.times_worn < item.times_worn then some item else some m

/-- The most-worn item computed by fetchStats: a left fold of
mostWornStep seeded with null over the fetched items in input order. -/
def mostWornItem (items : List StatItem) : Option StatItem :=
  items.foldl mostWornStep none

/-- The fold seeded with a concrete item either keeps that item, in
which case nothing in the list has strictly more wears, or returns the
first list element that strictly exceeds the seed and every element
before it, with everything after it at most as worn. -/
theorem mostWorn_go (l : List StatItem) :
    ∀ m : StatItem,
      (List.foldl mostWornStep (some m) l = some m ∧
        ∀ y ∈ l, y.times_worn ≤ m.times_worn) ∨
      (∃ r l1 l2, List.foldl mostWornStep (some m) l = some r ∧ l = l1 ++ r :: l2 ∧
        m.times_worn < r.times_worn ∧ (∀ y ∈ l1, y.times_worn < r.times_worn) ∧
        (∀ y ∈ l2, y.times_worn ≤ r.times_worn)) := by
  induction l with
  | nil =>
      intro m
      exact Or.inl ⟨rfl, by simp⟩
  | cons x xs ih =>
      intro m
      by_cases hx : m.times_worn < x.times_worn
      · have hstep : mostWornStep (some m) x = some x := by
          simp [mostWornStep, hx]
        rcases ih x with ⟨heq, hall⟩ | ⟨r, l1, l2, heq, hdec, hlt, hl1, hl2⟩
        · refine Or.inr ⟨x, [], xs, ?_, by simp, hx, by simp, hall⟩
          simp [List.foldl_cons, hstep, heq]
        · refine Or.inr ⟨r, x :: l1, l2, ?_, by simp [hdec], lt_trans hx hlt, ?_, hl2⟩
          · simp [List.foldl_cons, hstep, heq]
          · intro y hy
            rcases List.mem_cons.mp hy with rfl | hy
            · exact hlt
            · exact hl1 y hy
      · have hxm : x.times_worn ≤ m.times_worn := not_lt.mp hx
        have hstep : mostWornStep (some m) x = some m := by
          simp [mostWornStep, hx]
        rcases ih m with ⟨heq, hall⟩ | ⟨r, l1, l2, heq, hdec, hlt, hl1, hl2⟩
        · refine Or.inl ⟨?_, ?_⟩
          · simp [List.foldl_cons, hstep, heq]
          · intro y hy
            rcases List.mem_cons.mp hy with rfl | hy
            · exact hxm
            · exact hall y hy
        · refine Or.inr ⟨r, x :: l1, l2, ?_, by simp [hdec], hlt, ?_, hl2⟩
          · simp [List.foldl_cons, hstep, heq]
          · intro y hy
            rcases List.mem_cons.mp hy with rfl | hy
            · exact lt_of_le_of_lt hxm hlt
            · exact hl1 y hy

/-- C3 counterexample: a non-empty collection whose only item has zero
wears still yields that item as mostWornItem, because the reduce seeded
with null adopts the first item regardless of its count; the claim says
the result should be absent when all counts are zero. -/
theorem mostWornItem_present_when_all_zero :
    mostWornItem [{ name := "tee", times_worn := 0 }] =
      some { name := "tee", times_worn := 0 } := rfl

/-- C3 (amended): mostWornItem is absent exactly when the collection is
empty; on a non-empty collection it is the item with the maximum
times_worn, ties broken by the first item encountered in input order:
the result splits the input so that everything before it is strictly
less worn and everything after it at most as worn. -/
theorem mostWornItem_first_max :
    mostWornItem ([] : List StatItem) = none ∧
    ∀ items : List StatItem, items ≠ [] →
      ∃ r l1 l2, mostWornItem items = some r ∧ items = l1 ++ r :: l2 ∧
        (∀ y ∈ l1, y.times_worn < r.times_worn) ∧
        (∀ y ∈ l2, y.times_worn ≤ r.times_worn) := by
  refine ⟨rfl, ?_⟩
  intro items hne
  cases items with
  | nil => exact absurd rfl hne
  | cons x xs =>
      have hhead : mostWornItem (x :: xs) = List.foldl mostWornStep (some x) xs := rfl
      rcases mostWorn_go xs x with ⟨heq, hall⟩ | ⟨r, l1, l2, heq, hdec, hlt, hl1, hl2⟩
      · exact ⟨x, [], xs, by rw [hhead, heq], by simp, by simp, hall⟩
      · refine ⟨r, x :: l1, l2, by rw [hhead, heq], by simp [hdec], ?_, hl2⟩
        intro y hy
        rcases List.mem_cons.mp hy with rfl | hy
        · exact hlt
        · exact hl1 y hy

/-- Witness for C3 on a concrete two-item collection. -/
theorem mostWornItem_first_max_witness :
    ∃ r l1 l2,
      mostWornItem [{ name := "a", times_worn := 1 }, { name := "b", times_worn := 2 }] =
        some r ∧
      ([{ name := "a", times_worn := 1 }, { name := "b", times_worn := 2 }] : List StatItem) =
        l1 ++ r :: l2 ∧
      (∀ y ∈ l1, y.times_worn < r.times_worn) ∧
      (∀ y ∈ l2, y.times_worn ≤ r.times_worn) :=
  mostWornItem_first_max.2 _ (List.cons_ne_nil _ _)

/-- costPerWear as computed in the item detail view (ImagePicker.tsx):
purchase_price is tested for JavaScript truthiness, so a present price
of 0 takes the null branch exactly like an absent price; otherwise the
price is divided by times_worn when that is positive. -/
def costPerWear (purchase_price : Option Rat) (times_worn : Int) : Option Rat :=
  match purchase_price with
  | none => none
  | some p => if p ≠ 0 ∧ 0 < times_worn then some (p / (times_worn : Rat)) else none

/-- C4 counterexample: a present purchase price of 0 with 5 wears yields
an absent cost per wear, not 0, because 0 is falsy in the condition. -/
theorem costPerWear_zero_price_absent :
    costPerWear (some 0) 5 = none := by
  simp [costPerWear]

/-- C4 (amended): costPerWear is absent whenever purchase_price is
absent, or present but equal to 0, or times_worn is not positive;
otherwise it equals purchase_price divided by times_worn. -/
theorem costPerWear_amended :
    ∀ (p : Option Rat) (tw : Int),
      ((p = none ∨ p = some 0 ∨ tw ≤ 0) → costPerWear p tw = none) ∧
      (∀ x, p = some x → x ≠ 0 → 0 < tw →
        costPerWear p tw = some (x / (tw : Rat))) := by
  intro p tw
  constructor
  · rintro (rfl | rfl | htw)
    · rfl
    · simp [costPerWear]
    · cases p with
      | none => rfl
      | some x =>
          show (if x ≠ 0 ∧ 0 < tw then some (x / (tw : Rat)) else none) = none
          exact if_neg (fun hc => absurd hc.2 (not_lt.mpr htw))
  · rintro x rfl hx htw
    show (if x ≠ 0 ∧ 0 < tw then some (x / (tw : Rat)) else none) = some (x / (tw : Rat))
    exact if_pos ⟨hx, htw⟩

/-- Witness for C4: price 7 with 2 wears gives 7/2, and price 0 with
positive wears gives none. -/
theorem costPerWear_amended_witness :
    costPerWear (some 7) 2 = some ((7 : Rat) / ((2 : Int) : Rat)) ∧
    costPerWear (some 0) 3 = none :=
  ⟨(costPerWear_amended (some 7) 2).2 7 rfl (by norm_num) (by norm_num),
   (costPerWear_amended (some 0) 3).1 (Or.inr (Or.inl rfl))⟩

/-- Result of one uploadImage call: a public URL on success, an error
message on failure. -/
inductive UploadResult where
  | ok (url : String)
  | failed (msg : String)
deriving DecidableEq, Repr

/-- The success flag of an upload result, negated as in the
failedUploads filter of handleSave. -/
def isFailed : UploadResult → Bool
  | .ok _ => false
  | .failed _ => true

/-- The url carried by a successful upload result. -/
def urlOf : UploadResult → Option String
  | .ok url => some url
  | .failed _ => none

/-- uploadMultipleImages from imageUpload.ts: a strictly sequential loop
that appends each upload result in input order. -/
def uploadMultipleImages (upload : String → UploadResult) (uris : List String) :
    List UploadResult :=
  uris.foldl (fun results uri => results ++ [upload uri]) []

/-- The URLs extracted from upload results in handleSave: keep only the
successful results and take their urls, preserving order. -/
def successfulUrls (results : List UploadResult) : List String :=
  results.filterMap urlOf

/-- Outcome of the image phase of handleSave: either the save proceeds
directly, or the user is offered Cancel/Continue where Continue proceeds
with the given urls. -/
inductive ImagePhase where
  | direct (urls : List String)
  | offerChoice (continueUrls : List String)
deriving DecidableEq, Repr

/-- The image phase of handleSave in AddItem.tsx: when any upload
failed, the user is offered the continue/abort choice and Continue
proceeds with the successful urls only; otherwise the save proceeds
directly with all urls. -/
def handleSaveImagesPhase (upload : String → UploadResult) (uris : List String) :
    ImagePhase :=
  if 0 < ((uploadMultipleImages upload uris).filter isFailed).length then
    ImagePhase.offerChoice (successfulUrls (uploadMultipleImages upload uris))
  else
    ImagePhase.direct (successfulUrls (uploadMultipleImages upload uris))

/-- image_urls as persisted by proceedWithSave: null when the url list
is empty, the list itself otherwise. -/
def persistedImageUrls (urls : List String) : Option (List String) :=
  if urls.isEmpty then none else some urls

/-- The sequential upload fold seeded with any accumulator appends the
per-uri results in input order. -/
theorem uploadMultipleImages_go (upload : String → UploadResult) (uris : List String) :
    ∀ acc : List UploadResult,
      uris.foldl (fun results uri => results ++ [upload uri]) acc =
        acc ++ uris.map upload := by
  induction uris with
  | nil => intro acc; simp
  | cons u rest ih =>
      intro acc
      simp only [List.foldl_cons, List.map_cons]
      rw [ih]
      simp

/-- uploadMultipleImages produces exactly one result per uri, in input
order. -/
theorem uploadMultipleImages_eq_map (upload : String → UploadResult) (uris : List String) :
    uploadMultipleImages upload uris = uris.map upload := by
  simpa [uploadMultipleImages] using uploadMultipleImages_go upload uris []

/-- C7. Images are uploaded one at a time in input order (the result
list is the per-uri upload outcome list, index for index); when some but
not all uploads fail, the caller is offered the continue/abort choice,
and choosing continue persists the item with exactly the successfully
uploaded urls, in input order. -/
theorem partial_upload_continue (upload : String → UploadResult) (uris : List String)
    (hfail : ∃ u ∈ uris, isFailed (upload u) = true)
    (hok : ∃ u ∈ uris, (urlOf (upload u)).isSome = true) :
    uploadMultipleImages upload uris = uris.map upload ∧
    handleSaveImagesPhase upload uris =
      ImagePhase.offerChoice (uris.filterMap (fun u => urlOf (upload u))) ∧
    persistedImageUrls (uris.filterMap (fun u => urlOf (upload u))) =
      some (uris.filterMap (fun u => urlOf (upload u))) := by
  have hmap := uploadMultipleImages_eq_map upload uris
  obtain ⟨uf, hufmem, huf⟩ := hfail
  obtain ⟨uo, huomem, huo⟩ := hok
  have hsucc : successfulUrls (uris.map upload) =
      uris.filterMap (fun u => urlOf (upload u)) := by
    simp only [successfulUrls, List.filterMap_map]
    rfl
  refine ⟨hmap, ?_, ?_⟩
  · unfold handleSaveImagesPhase
    rw [hmap]
    have hpos : 0 < ((uris.map upload).filter isFailed).length := by
      apply List.length_pos_of_mem
      exact List.mem_filter.mpr ⟨List.mem_map_of_mem upload hufmem, huf⟩
    rw [if_pos hpos, hsucc]
  · have hne : uris.filterMap (fun u => urlOf (upload u)) ≠ [] := by
      intro hnil
      rw [List.filterMap_eq_nil_iff] at hnil
      rw [hnil uo huomem] at huo
      cases huo
    unfold persistedImageUrls
    rw [if_neg (by simpa [List.isEmpty_iff] using hne)]

/-- A concrete upload oracle where only the uri b fails. -/
def demoUpload : String → UploadResult :=
  fun u => if u = "b" then UploadResult.failed "upload failed" else UploadResult.ok ("https://img/" ++ u)

/-- Witness for C7: three images where the second fails lead to the
continue/abort offer carrying exactly the two successful urls. -/
theorem partial_upload_continue_witness :
    handleSaveImagesPhase demoUpload ["a", "b", "c"] =
      ImagePhase.offerChoice (["a", "b", "c"].filterMap (fun u => urlOf (demoUpload u))) :=
  (partial_upload_continue demoUpload ["a", "b", "c"] (by decide) (by decide)).2.1

/-- The distinct-value lists served to the input forms. -/
structure SuggestionsData where
  brands : List String
  subcategories : List String
deriving DecidableEq, Repr

/-- The module-level cache of suggestions.ts: the cached value (none
when unset) and the time it was stored. -/
structure CacheState where
  cache : Option SuggestionsData
  lastCacheTime : Nat
deriving DecidableEq, Repr

/-- Five minutes in milliseconds. -/
def CACHE_DURATION : Nat := 5 * 60 * 1000

/-- The brand and subcategory columns fetched per item row. -/
structure SuggestionRow where
  brand : Option String
  subcategory : Option String
deriving DecidableEq, Repr

/-- The filter-and-trim step: keep a value only when present with a
non-empty trimmed form, and keep the trimmed form. -/
def trimmedNonEmpty : Option String → Option String
  | none => none
  | some v => if jsTrim v = "" then none else some (jsTrim v)

/-- JavaScript Set insertion-order deduplication: the first occurrence
of each value is kept. -/
def jsSetDedup (l : List String) : List String :=
  l.foldl (fun acc x => if x ∈ acc then acc else acc ++ [x]) []

/-- JavaScript default Array.prototype.sort on strings: ascending
lexicographic. -/
def jsSort (l : List String) : List String :=
  l.insertionSort (fun a b => a ≤ b)

/-- The empty suggestion set. -/
def emptySuggestions : SuggestionsData :=
  { brands := [], subcategories := [] }

/-- The query branch of getSuggestions: on query failure return the
empty set and leave the cache untouched; on an empty item list cache and
return the empty set; otherwise extract, trim, deduplicate and sort the
brand and subcategory values and store them with a fresh timestamp. -/
def querySuggestions (st : CacheState) (now : Nat)
    (query : Except Unit (List SuggestionRow)) : SuggestionsData × CacheState :=
  match query with
  | .error _ => (emptySuggestions, st)
  | .ok items =>
      if items.isEmpty then
        (emptySuggestions, { cache := some emptySuggestions, lastCacheTime := now })
      else
        let brands := jsSort (jsSetDedup (items.filterMap (fun it => trimmedNonEmpty it.brand)))
        let subcategories :=
          jsSort (jsSetDedup (items.filterMap (fun it => trimmedNonEmpty it.subcategory)))
        (⟨brands, subcategories⟩,
          { cache := some ⟨brands, subcategories⟩, lastCacheTime := now })

/-- getSuggestions from suggestions.ts: serve the cached value while it
is present, fresh and no refresh is forced; otherwise run the query
branch. The result of the underlying item query is passed in explicitly. -/
def getSuggestions (st : CacheState) (now : Nat) (forceRefresh : Bool)
    (query : Except Unit (List SuggestionRow)) : SuggestionsData × CacheState :=
  match st.cache with
  | some s =>
      if forceRefresh = false ∧ now - st.lastCacheTime < CACHE_DURATION then (s, st)
      else querySuggestions st now query
  | none => querySuggestions st now query

/-- Which list addToSuggestionsCache targets. -/
inductive SuggestionKind where
  | brand
  | subcategory
deriving DecidableEq, Repr

/-- addToSuggestionsCache from suggestions.ts: a no-op when no cache
exists or the trimmed value is empty; otherwise, when the trimmed value
is not already present in the targeted list, it is pushed and the list
re-sorted in place. -/
def addToSuggestionsCache (st : CacheState) (kind : SuggestionKind) (value : String) :
    CacheState :=
  match st.cache with
  | none => st
  | some s =>
      if jsTrim value = "" then st
      else
        match kind with
        | .brand =>
            if jsTrim value ∈ s.brands then st
            else { st with cache := some { s with brands := jsSort (s.brands ++ [jsTrim value]) } }
        | .subcategory =>
            if jsTrim value ∈ s.subcategories then st
            else { st with
                   cache := some { s with
                     subcategories := jsSort (s.subcategories ++ [jsTrim value]) } }

/-- Both suggestion lists are duplicate-free and sorted ascending. -/
def DataInv (s : SuggestionsData) : Prop :=
  s.brands.Nodup ∧ List.Sorted (fun a b : String => a ≤ b) s.brands ∧
  s.subcategories.Nodup ∧ List.Sorted (fun a b : String => a ≤ b) s.subcategories

/-- Whatever the cache holds satisfies the list invariant. -/
def CacheInv (st : CacheState) : Prop :=
  ∀ s, st.cache = some s → DataInv s

/-- The dedup fold keeps its accumulator duplicate-free. -/
theorem jsSetDedup_go_nodup (l : List String) :
    ∀ acc : List String, acc.Nodup →
      (l.foldl (fun acc x => if x ∈ acc then acc else acc ++ [x]) acc).Nodup := by
  induction l with
  | nil => intro acc h; simpa using h
  | cons x xs ih =>
      intro acc h
      simp only [List.foldl_cons]
      by_cases hx : x ∈ acc
      · rw [if_pos hx]
        exact ih acc h
      · rw [if_neg hx]
        refine ih _ ?_
        rw [List.nodup_append]
        refine ⟨h, List.nodup_singleton x, ?_⟩
        intro a ha hax
        rw [List.mem_singleton] at hax
        subst hax
        exact hx ha

/-- jsSetDedup output is duplicate-free. -/
theorem jsSetDedup_nodup (l : List String) : (jsSetDedup l).Nodup :=
  jsSetDedup_go_nodup l [] List.nodup_nil

/-- jsSort output is sorted ascending. -/
theorem jsSort_sorted (l : List String) :
    List.Sorted (fun a b : String => a ≤ b) (jsSort l) :=
  List.sorted_insertionSort _ l

/-- jsSort preserves freedom from duplicates. -/
theorem jsSort_nodup (l : List String) (h : l.Nodup) : (jsSort l).Nodup :=
  (List.perm_insertionSort _ l).symm.nodup h

/-- The empty suggestion set satisfies the list invariant. -/
theorem DataInv_empty : DataInv emptySuggestions :=
  ⟨List.nodup_nil, List.sorted_nil, List.nodup_nil, List.sorted_nil⟩

/-- Sorting the dedup of any list satisfies both list conditions. -/
theorem sortedNodup_jsSort_jsSetDedup (l : List String) :
    (jsSort (jsSetDedup l)).Nodup ∧
      List.Sorted (fun a b : String => a ≤ b) (jsSort (jsSetDedup l)) :=
  ⟨jsSort_nodup _ (jsSetDedup_nodup l), jsSort_sorted _⟩

/-- The query branch returns data satisfying the invariant and leaves
the cache satisfying it. -/
theorem querySuggestions_inv (st : CacheState) (now : Nat)
    (query : Except Unit (List SuggestionRow)) (hst : CacheInv st) :
    DataInv (querySuggestions st now query).1 ∧
      CacheInv (querySuggestions st now query).2 := by
  cases query with
  | error e => exact ⟨DataInv_empty, hst⟩
  | ok items =>
      by_cases hemp : items.isEmpty
      · constructor
        · simp only [querySuggestions, if_pos hemp]
          exact DataInv_empty
        · simp only [querySuggestions, if_pos hemp]
          intro s hs
          cases hs
          exact DataInv_empty
      · have hdata : DataInv
            ⟨jsSort (jsSetDedup (items.filterMap (fun it => trimmedNonEmpty it.brand))),
             jsSort (jsSetDedup (items.filterMap (fun it => trimmedNonEmpty it.subcategory)))⟩ := by
          obtain ⟨hb1, hb2⟩ := sortedNodup_jsSort_jsSetDedup
            (items.filterMap (fun it => trimmedNonEmpty it.brand))
          obtain ⟨hs1, hs2⟩ := sortedNodup_jsSort_jsSetDedup
            (items.filterMap (fun it => trimmedNonEmpty it.subcategory))
          exact ⟨hb1, hb2, hs1, hs2⟩
        constructor
        · simp only [querySuggestions, if_neg hemp]
          exact hdata
        · simp only [querySuggestions, if_neg hemp]
          intro s hs
          cases hs
          exact hdata

/-- C9. After any getSuggestions or addToSuggestionsCache call, both
suggestion lists are duplicate-free (case-sensitive) and sorted
ascending, as an invariant: any call on a state whose cache satisfies
the invariant returns data satisfying it and leaves a cache satisfying
it; and addToSuggestionsCache with no existing cache is a no-op that
does not create one. -/
theorem suggestions_sorted_nodup :
    (∀ (st : CacheState) (now : Nat) (forceRefresh : Bool)
        (query : Except Unit (List SuggestionRow)),
        CacheInv st →
        DataInv (getSuggestions st now forceRefresh query).1 ∧
          CacheInv (getSuggestions st now forceRefresh query).2) ∧
    (∀ (st : CacheState) (kind : SuggestionKind) (value : String),
        CacheInv st → CacheInv (addToSuggestionsCache st kind value)) ∧
    (∀ (t0 : Nat) (kind : SuggestionKind) (value : String),
        addToSuggestionsCache { cache := none, lastCacheTime := t0 } kind value =
          { cache := none, lastCacheTime := t0 }) := by
  refine ⟨?_, ?_, ?_⟩
  · intro st now forceRefresh query hst
    unfold getSuggestions
    split
    · rename_i s hc
      split
      · exact ⟨hst s hc, hst⟩
      · exact querySuggestions_inv st now query hst
    · exact querySuggestions_inv st now query hst
  · intro st kind value hst
    unfold addToSuggestionsCache
    split
    · exact hst
    · rename_i s hc
      obtain ⟨hb1, hb2, hs1, hs2⟩ := hst s hc
      split
      · exact hst
      · split
        · split
          · exact hst
          · rename_i hmem
            intro s' hs'
            cases hs'
            refine ⟨?_, jsSort_sorted _, hs1, hs2⟩
            apply jsSort_nodup
            rw [List.nodup_append]
            refine ⟨hb1, List.nodup_singleton _, ?_⟩
            intro a ha hax
            rw [List.mem_singleton] at hax
            subst hax
            exact hmem ha
        · split
          · exact hst
          · rename_i hmem
            intro s' hs'
            cases hs'
            refine ⟨hb1, hb2, ?_, jsSort_sorted _⟩
            apply jsSort_nodup
            rw [List.nodup_append]
            refine ⟨hs1, List.nodup_singleton _, ?_⟩
            intro a ha hax
            rw [List.mem_singleton] at hax
            subst hax
            exact hmem ha
  · intro t0 kind value
    rfl

/-- Witness for C9: a populating getSuggestions call on the unset cache
with two rows yields duplicate-free sorted lists and a cache satisfying
the invariant. -/
theorem suggestions_sorted_nodup_witness :
    DataInv (getSuggestions { cache := none, lastCacheTime := 0 } 0 true
      (Except.ok [{ brand := some " Nike ", subcategory := none },
                  { brand := some "Acne", subcategory := some "top" }])).1 ∧
    CacheInv (getSuggestions { cache := none, lastCacheTime := 0 } 0 true
      (Except.ok [{ brand := some " Nike ", subcategory := none },
                  { brand := some "Acne", subcategory := some "top" }])).2 :=
  suggestions_sorted_nodup.1 { cache := none, lastCacheTime := 0 } 0 true
    (Except.ok [{ brand := some " Nike ", subcategory := none },
                { brand := some "Acne", subcategory := some "top" }])
    (fun _s h => nomatch h)

/-- C8. When the cached value cannot be served (refresh forced, cache
unset, or cache stale) and the underlying item query fails, getSuggestions
returns the empty suggestion set without raising and leaves both the
cache contents and the cache timestamp unchanged. -/
theorem getSuggestions_query_failure (st : CacheState) (now : Nat) (forceRefresh : Bool)
    (hmiss : forceRefresh = true ∨ st.cache = none ∨
      CACHE_DURATION ≤ now - st.lastCacheTime) :
    getSuggestions st now forceRefresh (Except.error ()) = (emptySuggestions, st) := by
  unfold getSuggestions
  split
  · rename_i s hc
    rw [if_neg]
    · rfl
    · rintro ⟨h1, h2⟩
      rcases hmiss with hf | hn | ht
      · rw [hf] at h1
        cases h1
      · rw [hn] at hc
        cases hc
      · exact absurd h2 (not_lt.mpr ht)
  · rfl

/-- Witness for C8: a stale populated cache together with a failing
query yields the empty set and the state is returned unchanged. -/
theorem getSuggestions_query_failure_witness :
    getSuggestions
        { cache := some { brands := ["Acne"], subcategories := ["top"] }, lastCacheTime := 0 }
        600000 false (Except.error ()) =
      (emptySuggestions,
        { cache := some { brands := ["Acne"], subcategories := ["top"] }, lastCacheTime := 0 }) :=
  getSuggestions_query_failure _ 600000 false (Or.inr (Or.inr (by decide)))

end WardrobeTracker
